import Mathlib

set_option maxHeartbeats 1000000
set_option maxRecDepth 4096

namespace LocalitApp

/-- JSON-like values as produced by json.loads, with Python dict keys allowed
to be arbitrary values (dict keys in this program are strings from JSON, but
the region key of the built region map is whatever the station's region field
holds, so keys are modelled as values). Numbers are modelled as rationals,
which represent every decimal JSON literal exactly. -/
inductive JValue where
  | null
  | bool (b : Bool)
  | num (q : Rat)
  | str (s : String)
  | arr (elems : List JValue)
  | obj (entries : List (JValue × JValue))
/-- Boolean equality on JValue, written by hand because deriving does not
handle the nested inductive. -/
def JValue.beq : JValue → JValue → Bool
  | .null, .null => true
  | .bool a, .bool b => a == b
  | .num a, .num b => a == b
  | .str a, .str b => a == b
  | .arr a, .arr b => beqList a b
  | .obj a, .obj b => beqObj a b
  | _, _ => false
where
  beqList : List JValue → List JValue → Bool
    | [], [] => true
    | x :: xs, y :: ys => JValue.beq x y && beqList xs ys
    | _, _ => false
  beqObj : List (JValue × JValue) → List (JValue × JValue) → Bool
    | [], [] => true
    | (k1, v1) :: xs, (k2, v2) :: ys => JValue.beq k1 k2 && JValue.beq v1 v2 && beqObj xs ys
    | _, _ => false

mutual
theorem JValue.beq_iff : ∀ a b : JValue, JValue.beq a b = true ↔ a = b
  | .null, .null => by simp [JValue.beq]
  | .bool a, .bool b => by simp [JValue.beq]
  | .num a, .num b => by simp [JValue.beq]
  | .str a, .str b => by simp [JValue.beq]
  | .arr a, .arr b => by
      simpa [JValue.beq] using JValue.beqList_iff a b
  | .obj a, .obj b => by
      simpa [JValue.beq] using JValue.beqObj_iff a b
  | .null, .bool _ | .null, .num _ | .null, .str _ | .null, .arr _ | .null, .obj _
  | .bool _, .null | .bool _, .num _ | .bool _, .str _ | .bool _, .arr _ | .bool _, .obj _
  | .num _, .null | .num _, .bool _ | .num _, .str _ | .num _, .arr _ | .num _, .obj _
  | .str _, .null | .str _, .bool _ | .str _, .num _ | .str _, .arr _ | .str _, .obj _
  | .arr _, .null | .arr _, .bool _ | .arr _, .num _ | .arr _, .str _ | .arr _, .obj _
  | .obj _, .null | .obj _, .bool _ | .obj _, .num _ | .obj _, .str _ | .obj _, .arr _ => by
      simp [JValue.beq]

theorem JValue.beqList_iff : ∀ a b : List JValue, JValue.beq.beqList a b = true ↔ a = b
  | [], [] => by simp [JValue.beq.beqList]
  | [], _ :: _ => by simp [JValue.beq.beqList]
  | _ :: _, [] => by simp [JValue.beq.beqList]
  | x :: xs, y :: ys => by
      simp [JValue.beq.beqList, JValue.beq_iff x y, JValue.beqList_iff xs ys]

theorem JValue.beqObj_iff :
    ∀ a b : List (JValue × JValue), JValue.beq.beqObj a b = true ↔ a = b
  | [], [] => by simp [JValue.beq.beqObj]
  | [], _ :: _ => by simp [JValue.beq.beqObj]
  | _ :: _, [] => by simp [JValue.beq.beqObj]
  | (k1, v1) :: xs, (k2, v2) :: ys => by
      simp [JValue.beq.beqObj, JValue.beq_iff k1 k2, JValue.beq_iff v1 v2,
        JValue.beqObj_iff xs ys, and_assoc]
end

instance : DecidableEq JValue := fun a b =>
  decidable_of_iff (JValue.beq a b = true) (JValue.beq_iff a b)

instance {ε α : Type} [DecidableEq ε] [DecidableEq α] : DecidableEq (Except ε α) := fun a b =>
  match a, b with
  | .ok x, .ok y => decidable_of_iff (x = y) (by simp)
  | .error x, .error y => decidable_of_iff (x = y) (by simp)
  | .ok _, .error _ => isFalse (by simp)
  | .error _, .ok _ => isFalse (by simp)

/-- Python truthiness of a JSON value: None, False, 0, "", [] and the empty
dict are falsy, everything else is truthy. -/
def truthy : JValue → Bool
  | .null => false
  | .bool b => b
  | .num q => q ≠ 0
  | .str s => s ≠ ""
  | .arr l => l ≠ []
  | .obj l => l ≠ []

/-- Whether a value is a Python dict (isinstance(v, dict)). -/
def JValue.isDict : JValue → Bool
  | .obj _ => true
  | _ => false

/-- Whether a value is a Python list (isinstance(v, list)). -/
def JValue.isArr : JValue → Bool
  | .arr _ => true
  | _ => false

/-- Whether a value is hashable in Python, i.e. usable as a dict key
(lists and dicts are unhashable). -/
def hashableKey : JValue → Bool
  | .arr _ => false
  | .obj _ => false
  | _ => true

/-- Lookup in a Python dict modelled as an insertion-ordered association
list (d.get(k) / d[k] / k in d); keys are unique in any list that models an
actual dict, so the first match is the binding. -/
def alookup {β : Type} : List (JValue × β) → JValue → Option β
  | [], _ => none
  | (k, v) :: rest, key => if k = key then some v else alookup rest key

/-- Assignment d[k] = v on a Python dict: replace the value in place when the
key is present, otherwise append the new binding at the end (insertion
order). -/
def aset {β : Type} : List (JValue × β) → JValue → β → List (JValue × β)
  | [], key, v => [(key, v)]
  | (k, w) :: rest, key, v =>
      if k = key then (k, v) :: rest else (k, w) :: aset rest key v

/-- d.setdefault(k, v): insert the binding only when the key is absent. -/
def asetdefault {β : Type} (l : List (JValue × β)) (key : JValue) (v : β) :
    List (JValue × β) :=
  match alookup l key with
  | some _ => l
  | none => l ++ [(key, v)]

/-- Python `a or b` on values: a if a is truthy, else b. -/
def pyOr (a b : JValue) : JValue :=
  if truthy a then a else b

/-- Normalization of one route value (Localit_App.py lines 133-150): a dict
with a dict under "destinations" is used as-is; otherwise a non-empty dict
whose values are all lists is taken directly as the destination map; otherwise
a list under "destinations" is wrapped as a one-entry map keyed by the route
name; a bare list is wrapped the same way; anything else becomes an empty
map. -/
def normRoute (rname robj : JValue) : JValue :=
  match robj with
  | .obj entries =>
      match alookup entries (.str "destinations") with
      | some (.obj d) => .obj d
      | _ =>
          let is_direct_map := !entries.isEmpty && entries.all (fun kv => kv.2.isArr)
          if is_direct_map then .obj entries
          else
            match alookup entries (.str "destinations") with
            | some (.arr dests) => .obj [(rname, .arr dests)]
            | _ => .obj []
  | .arr l => .obj [(rname, .arr l)]
  | _ => .obj []

/-- Normalization of one station record (Localit_App.py lines 126-150):
returns the (region, station_entry) pair, or an error when the Python code
would raise: station_obj is not a dict (AttributeError on .get), a truthy
routes field is not a dict (AttributeError on .items), or the region value is
unhashable (TypeError as dict key). The per-route assignments into the
initially empty 노선 dict are a map in iteration order, since a source dict
has unique keys. -/
def normStation (station_obj : JValue) : Except Unit (JValue × JValue) :=
  match station_obj with
  | .obj entries =>
      let region := (alookup entries (.str "region")).getD (.str "기타")
      let gps := pyOr ((alookup entries (.str "gps")).getD .null)
                   (pyOr ((alookup entries (.str "gps_info")).getD .null)
                     (pyOr ((alookup entries (.str "gpsinfo")).getD .null) (.arr [])))
      let gpsVal := if gps.isArr then gps else .arr []
      let routes := pyOr ((alookup entries (.str "routes")).getD .null) (.obj [])
      match routes with
      | .obj rlist =>
          if hashableKey region then
            .ok (region, .obj [(.str "gps_info", gpsVal),
                               (.str "노선", .obj (rlist.map (fun kv => (kv.1, normRoute kv.1 kv.2))))])
          else .error ()
      | _ => .error ()
  | _ => .error ()

/-- region_map.setdefault(region, {})[station_name] = entry: fetch (or create
empty) the station map of the region and assign the station entry into it. -/
def insertStation (rm : List (JValue × List (JValue × JValue)))
    (region sname : JValue) (entry : JValue) : List (JValue × List (JValue × JValue)) :=
  aset rm region (aset ((alookup rm region).getD []) sname entry)

/-- The station loop of normalize_loaded_data (lines 124-152), with the
region map accumulated in iteration order; an error from any station aborts
the whole computation, as the uncaught Python exception would. -/
def buildRegionMap :
    List (JValue × JValue) → List (JValue × List (JValue × JValue)) →
      Except Unit (List (JValue × List (JValue × JValue)))
  | [], rm => .ok rm
  | (sname, sobj) :: rest, rm =>
      match normStation sobj with
      | .ok rv => buildRegionMap rest (insertStation rm rv.1 sname rv.2)
      | .error e => .error e

/-- normalize_loaded_data (Localit_App.py lines 108-158). A non-dict input
becomes {"region_data": {}}; a dict whose "region_data" value is a dict is
returned unchanged; otherwise a truthy dict under "stations" is normalized
station by station and the result assigned to "region_data"; otherwise
"region_data" is set-defaulted to an empty dict. The error case models the
exceptions the Python code can raise while normalizing stations. -/
def normalize_loaded_data (data : JValue) : Except Unit JValue :=
  match data with
  | .obj kvs =>
      match alookup kvs (.str "region_data") with
      | some (.obj _) => .ok (.obj kvs)
      | _ =>
          match alookup kvs (.str "stations") with
          | some (.obj stations) =>
              if stations.isEmpty then
                .ok (.obj (asetdefault kvs (.str "region_data") (.obj [])))
              else
                match buildRegionMap stations [] with
                | .ok rm =>
                    .ok (.obj (aset kvs (.str "region_data")
                          (.obj (rm.map (fun p => (p.1, JValue.obj p.2))))))
                | .error e => .error e
          | _ => .ok (.obj (asetdefault kvs (.str "region_data") (.obj [])))
  | _ => .ok (.obj [(.str "region_data", .obj [])])

/-- Characters stripped by Python str.strip() / int(): ASCII whitespace (the
inputs at hand contain no exotic Unicode whitespace, which strip() would also
remove). -/
def isSpacePy (c : Char) : Bool :=
  c = ' ' || c = '\t' || c = '\n' || c = '\r' || c = '\x0b' || c = '\x0c'

/-- Python str.strip(): drop leading and trailing whitespace. -/
def trimChars (cs : List Char) : List Char :=
  ((cs.dropWhile isSpacePy).reverse.dropWhile isSpacePy).reverse

/-- Python s.split(sep) for a one-character separator: split on every
occurrence, keeping empty pieces ("".split(c) is [""]). -/
def splitOnChar (sep : Char) : List Char → List (List Char)
  | [] => [[]]
  | c :: cs =>
      let rest := splitOnChar sep cs
      if c = sep then [] :: rest
      else
        match rest with
        | r :: rs => (c :: r) :: rs
        | [] => [[c]]

/-- Python int(s) on a decimal string: surrounding whitespace is allowed, then
an optional sign and a non-empty digit run (underscore digit grouping and
non-ASCII digits, which int() also accepts, are not modelled — no input here
uses them). Returns none where int() raises ValueError. -/
def parseIntPy (cs : List Char) : Option Int :=
  let t := trimChars cs
  match t with
  | '-' :: rest => (digitRun rest).map (fun n => -(n : Int))
  | '+' :: rest => (digitRun rest).map (fun n => (n : Int))
  | _ => (digitRun t).map (fun n => (n : Int))
where
  /-- A non-empty all-digit run read as a natural number. -/
  digitRun (cs : List Char) : Option Nat :=
    if cs.isEmpty then none
    else
      cs.foldl
        (fun acc c =>
          match acc with
          | some n => if c.isDigit then some (n * 10 + (c.toNat - 48)) else none
          | none => none)
        (some 0)

/-- One parsed timetable entry: hour, minute, and the cleaned display
string. -/
abbrev Entry := Nat × Nat × String

/-- Seconds after midnight of an entry's departure instant on the current
date (the constructed datetime has second=0). -/
def entrySec (e : Entry) : Nat := e.1 * 3600 + e.2.1 * 60

/-- Parsing of one timetable entry (Localit_App.py lines 189-197): truncate
at the first '역', strip, split on ':' into exactly two int fields, and
require the datetime constructor's ranges (0-23 hours, 0-59 minutes); none
models the swallowed exception. -/
def parseTime (t : String) : Option Entry :=
  let clean := trimChars (t.toList.takeWhile (fun c => c ≠ '역'))
  match splitOnChar ':' clean with
  | [hs, ms] =>
      match parseIntPy hs, parseIntPy ms with
      | some h, some m =>
          if 0 ≤ h ∧ h ≤ 23 ∧ 0 ≤ m ∧ m ≤ 59 then
            some (h.toNat, m.toNat, String.mk clean)
          else none
      | _, _ => none
  | _ => none

/-- Stable insertion of an entry after every entry with an equal or earlier
departure instant. -/
def insEntry (x : Entry) : List Entry → List Entry
  | [] => [x]
  | y :: ys => if entrySec y ≤ entrySec x then y :: insEntry x ys else x :: y :: ys

/-- parsed_entries.sort(key=lambda x: x[0]): a stable sort by the departure
instant; equal instants keep their input order, as Python's sort does. -/
def sortEntries (l : List Entry) : List Entry :=
  l.foldl (fun acc x => insEntry x acc) []

/-- The current KST civil time, to second resolution, as sampled once at the
top of calculate_next_bus. Asia/Seoul has no DST, so all instants of one
civil day are compared and subtracted through seconds after midnight.
(datetime.now also carries microseconds; the spec and every claim only speak
to second resolution, which is also all the formatted output shows.) -/
structure KSTTime where
  year : Nat
  month : Nat
  day : Nat
  hour : Nat
  minute : Nat
  second : Nat
deriving DecidableEq, Repr

/-- Seconds after midnight of the sampled now. -/
def nowSec (now : KSTTime) : Nat :=
  now.hour * 3600 + now.minute * 60 + now.second

/-- Zero-padding to two digits, as strftime %m %d %H %M %S do. -/
def pad2 (n : Nat) : String :=
  if n < 10 then "0" ++ toString n else toString n

/-- Zero-padding to four digits, as strftime %Y does. -/
def pad4 (n : Nat) : String :=
  if n < 10 then "000" ++ toString n
  else if n < 100 then "00" ++ toString n
  else if n < 1000 then "0" ++ toString n
  else toString n

/-- now.strftime("%Y년 %m월 %d일 %H시 %M분 %S초"). -/
def fmtNow (now : KSTTime) : String :=
  pad4 now.year ++ "년 " ++ pad2 now.month ++ "월 " ++ pad2 now.day ++ "일 " ++
    pad2 now.hour ++ "시 " ++ pad2 now.minute ++ "분 " ++ pad2 now.second ++ "초"

/-- The triple calculate_next_bus returns: the display description, the
chosen next-departure label (None when no schedule), and the formatted
current time. -/
structure BusResult where
  display : String
  label : Option String
  nowStr : String
deriving DecidableEq, Repr

/-- calculate_next_bus (Localit_App.py lines 177-215). The Python function
samples now = datetime.datetime.now(tz=KST) internally at its start; the
sample is made explicit here as the now argument so the rest of the
computation can be stated as a function. str(t) is the identity on the
string entries the timetable lists hold. Minute counts use Python's floor
division of the signed difference in seconds. -/
def calculate_next_bus (timetable_list : List String) (now : KSTTime) : BusResult :=
  let parsed_entries := sortEntries (timetable_list.filterMap parseTime)
  match parsed_entries.find? (fun e => nowSec now < entrySec e) with
  | some e =>
      let mins : Int := Int.fdiv ((entrySec e : Int) - (nowSec now : Int)) 60
      ⟨"다음 버스까지 약 " ++ toString mins ++ "분 남음 (" ++ e.2.2 ++ " 출발)",
       some e.2.2, fmtNow now⟩
  | none =>
      match parsed_entries with
      | first :: _ =>
          let mins : Int := Int.fdiv ((86400 + (entrySec first : Int)) - (nowSec now : Int)) 60
          ⟨"오늘 운행 종료 — 내일 첫차 " ++ first.2.2 ++ "까지 약 " ++ toString mins ++ "분 남음",
           some first.2.2, fmtNow now⟩
      | [] => ⟨"등록된 시간표가 없습니다.", none, fmtNow now⟩

/-- The first alias value that is present and truthy, skipping absent and
falsy ones. -/
def firstTruthyAlias : List (Option JValue) → Option JValue
  | [] => none
  | none :: rest => firstTruthyAlias rest
  | some v :: rest => if truthy v then some v else firstTruthyAlias rest

/-- Modelled from the spec wording of the coordinate-alias rule, for
comparison with the code: consult the aliases gps, gps_info, gpsinfo in this
order, treating a falsy value as absent; the first truthy value is used when
it is a list, and the coordinate field is the empty list when it is not a
list or when no alias yields a truthy value. -/
def gpsSpecChain (g1 g2 g3 : Option JValue) : JValue :=
  match firstTruthyAlias [g1, g2, g3] with
  | some (.arr l) => .arr l
  | _ => .arr []

/-- The source's `a or b or c or []` fallback chain over a list of lookups;
pyChain [g1, g2, g3] is definitionally the nested pyOr chain normStation
builds. -/
def pyChain : List (Option JValue) → JValue
  | [] => .arr []
  | g :: gs => pyOr (g.getD .null) (pyChain gs)

/-- The condition under which one station record normalizes without an
exception: it is a dict, its region value (present or defaulted) is
hashable, and its routes value, when truthy, is a dict. -/
def wfStation (station_obj : JValue) : Bool :=
  match station_obj with
  | .obj entries =>
      hashableKey ((alookup entries (.str "region")).getD (.str "기타")) &&
        (match alookup entries (.str "routes") with
         | some r => !truthy r || r.isDict
         | none => true)
  | _ => false

/-- The condition under which normalize_loaded_data raises no exception: the
station loop only runs for a non-empty dict under "stations" when there is no
dict under "region_data", and then every station record must satisfy
wfStation. -/
def wfInput (data : JValue) : Bool :=
  match data with
  | .obj kvs =>
      match alookup kvs (.str "region_data") with
      | some (.obj _) => true
      | _ =>
          match alookup kvs (.str "stations") with
          | some (.obj stations) =>
              stations.isEmpty || stations.all (fun kv => wfStation kv.2)
          | _ => true
  | _ => true

end LocalitApp

namespace LocalitApp

theorem alookup_aset_self {β : Type} (l : List (JValue × β)) (k : JValue) (v : β) :
    alookup (aset l k v) k = some v := by
  induction l with
  | nil => simp [aset, alookup]
  | cons kv rest ih =>
      obtain ⟨k1, w⟩ := kv
      by_cases h : k1 = k
      · simp [aset, alookup, h]
      · simp [aset, alookup, h, ih]

theorem alookup_aset_ne {β : Type} (l : List (JValue × β)) (k k' : JValue) (v : β)
    (h : k' ≠ k) : alookup (aset l k v) k' = alookup l k' := by
  induction l with
  | nil => simp [aset, alookup, Ne.symm h]
  | cons kv rest ih =>
      obtain ⟨k1, w⟩ := kv
      by_cases h1 : k1 = k
      · subst h1
        simp [aset, alookup, Ne.symm h]
      · simp [aset, alookup, h1, ih]

theorem alookup_append_self {β : Type} (l : List (JValue × β)) (k : JValue) (v : β)
    (h : alookup l k = none) : alookup (l ++ [(k, v)]) k = some v := by
  induction l with
  | nil => simp [alookup]
  | cons kv rest ih =>
      obtain ⟨k1, w⟩ := kv
      by_cases h1 : k1 = k
      · simp [alookup, h1] at h
      · simp [alookup, h1] at h ⊢
        exact ih h

theorem alookup_append_ne {β : Type} (l : List (JValue × β)) (k k' : JValue) (v : β)
    (h : k' ≠ k) : alookup (l ++ [(k, v)]) k' = alookup l k' := by
  induction l with
  | nil => simp [alookup, Ne.symm h]
  | cons kv rest ih =>
      obtain ⟨k1, w⟩ := kv
      by_cases h1 : k1 = k'
      · simp [alookup, h1]
      · simp [alookup, h1, ih]

theorem asetdefault_cases {β : Type} (l : List (JValue × β)) (k : JValue) (v : β) :
    ((alookup l k).isSome = true ∧ asetdefault l k v = l) ∨
    (alookup l k = none ∧ asetdefault l k v = l ++ [(k, v)]) := by
  unfold asetdefault
  cases hl : alookup l k <;> simp [hl]

/-- Every successful normalization of a dict returns the dict unchanged (with
its region_data binding already present), or with region_data assigned, or
with region_data appended by setdefault. -/
theorem normalize_ok_forms (kvs : List (JValue × JValue)) (y : JValue)
    (h : normalize_loaded_data (.obj kvs) = .ok y) :
    ((alookup kvs (.str "region_data")).isSome = true ∧ y = .obj kvs) ∨
    (∃ rm, y = .obj (aset kvs (.str "region_data") (.obj rm))) ∨
    (alookup kvs (.str "region_data") = none ∧
      y = .obj (kvs ++ [(.str "region_data", .obj [])])) := by
  have hsd : ∀ h2 : JValue.obj (asetdefault kvs (.str "region_data") (.obj [])) = y,
      ((alookup kvs (.str "region_data")).isSome = true ∧ y = .obj kvs) ∨
      (∃ rm, y = .obj (aset kvs (.str "region_data") (.obj rm))) ∨
      (alookup kvs (.str "region_data") = none ∧
        y = .obj (kvs ++ [(.str "region_data", .obj [])])) := by
    intro h2
    rcases asetdefault_cases kvs (.str "region_data") (.obj []) with ⟨hs, he⟩ | ⟨hn, he⟩
    · left
      exact ⟨hs, by rw [← h2, he]⟩
    · right; right
      exact ⟨hn, by rw [← h2, he]⟩
  simp only [normalize_loaded_data] at h
  split at h
  next m heq =>
    left
    exact ⟨by simp [heq], (Except.ok.inj h).symm⟩
  next hne =>
    split at h
    next stations heq2 =>
      split at h
      · exact hsd (Except.ok.inj h)
      · split at h
        next rm heq3 =>
          right; left
          exact ⟨_, (Except.ok.inj h).symm⟩
        next => cases h
    next =>
      exact hsd (Except.ok.inj h)

/-- Shape-A passthrough: a dict whose region_data value is a dict is returned
unchanged. -/
theorem normalize_shapeA (kvs : List (JValue × JValue)) (m : List (JValue × JValue))
    (h : alookup kvs (.str "region_data") = some (.obj m)) :
    normalize_loaded_data (.obj kvs) = .ok (.obj kvs) := by
  simp only [normalize_loaded_data]
  rw [h]

theorem normStation_ok_of_wf (so : JValue) (h : wfStation so = true) :
    ∃ p, normStation so = .ok p := by
  cases so with
  | null => simp [wfStation] at h
  | bool b => simp [wfStation] at h
  | num q => simp [wfStation] at h
  | str s => simp [wfStation] at h
  | arr l => simp [wfStation] at h
  | obj entries =>
      simp only [wfStation, Bool.and_eq_true] at h
      obtain ⟨hreg, hroutes⟩ := h
      have hobj : ∃ rlist : List (JValue × JValue),
          pyOr ((alookup entries (.str "routes")).getD .null) (.obj []) = .obj rlist := by
        cases hr : alookup entries (.str "routes") with
        | none => exact ⟨[], by simp [pyOr, truthy]⟩
        | some r =>
            rw [hr] at hroutes
            by_cases ht : truthy r = true
            · have hd : r.isDict = true := by
                rcases Bool.or_eq_true _ _ |>.mp hroutes with h1 | h1
                · rw [ht] at h1
                  simp at h1
                · exact h1
              cases r with
              | obj rlist => exact ⟨rlist, by simp [pyOr, ht]⟩
              | null => simp [JValue.isDict] at hd
              | bool b => simp [JValue.isDict] at hd
              | num q => simp [JValue.isDict] at hd
              | str s => simp [JValue.isDict] at hd
              | arr l => simp [JValue.isDict] at hd
            · exact ⟨[], by simp [pyOr, ht]⟩
      obtain ⟨rlist, hobjeq⟩ := hobj
      cases hE : normStation (.obj entries) with
      | ok p => exact ⟨p, rfl⟩
      | error e =>
          exfalso
          simp only [normStation, hobjeq] at hE
          rw [if_pos hreg] at hE
          cases hE

theorem buildRegionMap_ok_of_wf :
    ∀ stations : List (JValue × JValue),
      stations.all (fun kv => wfStation kv.2) = true →
      ∀ rm, ∃ rm2, buildRegionMap stations rm = .ok rm2 := by
  intro stations
  induction stations with
  | nil => exact fun _ rm => ⟨rm, rfl⟩
  | cons kv rest ih =>
      intro h rm
      obtain ⟨k1, sobj⟩ := kv
      rw [List.all_cons, Bool.and_eq_true] at h
      obtain ⟨h1, h2⟩ := h
      obtain ⟨p, hp⟩ := normStation_ok_of_wf sobj h1
      simp only [buildRegionMap]
      rw [hp]
      exact ih h2 _

/-- A failing normalization comes only from the station loop: there is a
non-empty stations dict, the loop fails, and the input is not wfInput. -/
theorem normalize_error_cases (kvs : List (JValue × JValue))
    (h : normalize_loaded_data (.obj kvs) = .error ()) :
    wfInput (.obj kvs) = false := by
  simp only [normalize_loaded_data] at h
  split at h
  next m heq => cases h
  next hne =>
    split at h
    next stations heq2 =>
      split at h
      next he => cases h
      next he =>
        split at h
        next rm heq3 => cases h
        next heq3 =>
          have hstep :
              wfInput (.obj kvs) =
                (match alookup kvs (.str "stations") with
                 | some (.obj stations) =>
                     stations.isEmpty || stations.all (fun kv => wfStation kv.2)
                 | _ => true) →
              wfInput (.obj kvs) = false := by
            intro hred
            rw [hred, heq2, Bool.or_eq_false_iff]
            refine ⟨by simpa using he, ?_⟩
            by_cases hall : stations.all (fun kv => wfStation kv.2) = true
            · obtain ⟨rm2, hok⟩ := buildRegionMap_ok_of_wf stations hall []
              rw [hok] at heq3
              cases heq3
            · simpa using hall
          cases hrd : alookup kvs (.str "region_data") with
          | none => exact hstep (by simp only [wfInput, hrd])
          | some v =>
              cases v with
              | obj m => exact (hne _ hrd).elim
              | null => exact hstep (by simp only [wfInput, hrd])
              | bool b => exact hstep (by simp only [wfInput, hrd])
              | num q => exact hstep (by simp only [wfInput, hrd])
              | str s => exact hstep (by simp only [wfInput, hrd])
              | arr l => exact hstep (by simp only [wfInput, hrd])
    next hne2 => cases h

/-- C2 counterexample: normalization is not total. On the input
{"stations": {"S": 0}} the station loop calls .get on the integer 0 and the
Python code raises AttributeError (modelled as the error result); the input
is exactly one of the malformed shapes (wrong type for a station record) the
claim says are handled. -/
theorem normalize_raises_on_nondict_station :
    normalize_loaded_data (.obj [(.str "stations", .obj [(.str "S", .num 0)])]) =
      .error () ∧
    wfInput (.obj [(.str "stations", .obj [(.str "S", .num 0)])]) = false := by
  decide

/-- C2 (amended): normalize_loaded_data raises no exception and returns a
dict carrying a region_data key, provided that whenever the station loop
runs (no dict under region_data, a truthy dict under stations), every
station record is a dict whose region value is hashable and whose routes
value, when truthy, is a dict. Arbitrary other malformed input (non-dict
root, missing keys, wrong-typed route values) is still handled totally. -/
theorem normalize_total_on_wf :
    ∀ data, wfInput data = true →
      ∃ kvs2, normalize_loaded_data data = .ok (.obj kvs2) ∧
        (alookup kvs2 (.str "region_data")).isSome = true := by
  intro data hwf
  cases data with
  | null => exact ⟨[(.str "region_data", .obj [])], rfl, by decide⟩
  | bool b => exact ⟨[(.str "region_data", .obj [])], rfl, by decide⟩
  | num q => exact ⟨[(.str "region_data", .obj [])], rfl, by decide⟩
  | str s => exact ⟨[(.str "region_data", .obj [])], rfl, by decide⟩
  | arr l => exact ⟨[(.str "region_data", .obj [])], rfl, by decide⟩
  | obj kvs =>
      cases hE : normalize_loaded_data (.obj kvs) with
      | ok y =>
          rcases normalize_ok_forms kvs y hE with ⟨hs, rfl⟩ | ⟨rm, rfl⟩ | ⟨hn, rfl⟩
          · exact ⟨kvs, rfl, hs⟩
          · exact ⟨_, rfl, by rw [alookup_aset_self]; rfl⟩
          · exact ⟨_, rfl, by rw [alookup_append_self kvs _ _ hn]; rfl⟩
      | error e =>
          cases e
          have hw2 := normalize_error_cases kvs hE
          rw [hwf] at hw2
          cases hw2

theorem normalize_total_on_wf_witness :
    wfInput (.obj [(.str "stations", .obj [(.str "서천특화시장", .obj
        [(.str "region", .str "서천읍"), (.str "gps", .arr [.num 36, .num 126]),
         (.str "routes", .obj [(.str "한산 방면", .arr [.str "06:40"])])])])]) = true ∧
    ∃ kvs2,
      normalize_loaded_data (.obj [(.str "stations", .obj [(.str "서천특화시장", .obj
          [(.str "region", .str "서천읍"), (.str "gps", .arr [.num 36, .num 126]),
           (.str "routes", .obj [(.str "한산 방면", .arr [.str "06:40"])])])])]) =
        .ok (.obj kvs2) ∧
      (alookup kvs2 (.str "region_data")).isSome = true :=
  ⟨by decide, normalize_total_on_wf _ (by decide)⟩

/-- C6: normalization is idempotent — any successful output, normalized
again, is returned unchanged (in particular on already-canonical Shape-A
values) — and a top-level dict holding a non-empty region mapping under
region_data is passed through entirely unchanged. -/
theorem normalize_idempotent_and_passthrough :
    (∀ x y, normalize_loaded_data x = .ok y → normalize_loaded_data y = .ok y) ∧
    (∀ kvs m, m ≠ [] → alookup kvs (.str "region_data") = some (.obj m) →
      normalize_loaded_data (.obj kvs) = .ok (.obj kvs)) := by
  constructor
  · intro x y h
    cases x with
    | null =>
        simp only [normalize_loaded_data] at h
        rw [← Except.ok.inj h]
        decide
    | bool b =>
        simp only [normalize_loaded_data] at h
        rw [← Except.ok.inj h]
        decide
    | num q =>
        simp only [normalize_loaded_data] at h
        rw [← Except.ok.inj h]
        decide
    | str s =>
        simp only [normalize_loaded_data] at h
        rw [← Except.ok.inj h]
        decide
    | arr l =>
        simp only [normalize_loaded_data] at h
        rw [← Except.ok.inj h]
        decide
    | obj kvs =>
        rcases normalize_ok_forms kvs y h with ⟨hs, rfl⟩ | ⟨rm, rfl⟩ | ⟨hn, rfl⟩
        · exact h
        · exact normalize_shapeA _ _ (alookup_aset_self kvs (.str "region_data") (.obj rm))
        · exact normalize_shapeA _ _ (alookup_append_self kvs (.str "region_data") (.obj []) hn)
  · intro kvs m _ hl
    exact normalize_shapeA kvs m hl

theorem normalize_idempotent_and_passthrough_witness :
    normalize_loaded_data (.obj []) = .ok (.obj [(.str "region_data", .obj [])]) ∧
    normalize_loaded_data (.obj [(.str "region_data", .obj [])]) =
      .ok (.obj [(.str "region_data", .obj [])]) ∧
    ([((.str "서천읍" : JValue), (.obj [] : JValue))] ≠ ([] : List (JValue × JValue))) ∧
    alookup ([(.str "region_data", .obj [(.str "서천읍", .obj [])])] : List (JValue × JValue))
        (.str "region_data") =
      some (JValue.obj [(.str "서천읍", .obj [])]) ∧
    normalize_loaded_data (.obj [(.str "region_data", .obj [(.str "서천읍", .obj [])])]) =
      .ok (.obj [(.str "region_data", .obj [(.str "서천읍", .obj [])])]) :=
  by
  refine ⟨by decide, ?_, by decide, by decide, ?_⟩
  · exact normalize_idempotent_and_passthrough.1 (JValue.obj []) _ (by decide)
  · exact normalize_idempotent_and_passthrough.2 _
      [(JValue.str "서천읍", JValue.obj [])] (by decide) (by decide)

/-- C9: normalization only ever touches the region_data key of the top-level
dict; every other top-level key — in particular tourism — keeps exactly the
value it had in the input. -/
theorem normalize_frame_other_keys :
    ∀ kvs y, normalize_loaded_data (.obj kvs) = .ok y →
      ∃ kvs2, y = .obj kvs2 ∧
        ∀ k, k ≠ .str "region_data" → alookup kvs2 k = alookup kvs k := by
  intro kvs y h
  rcases normalize_ok_forms kvs y h with ⟨hs, rfl⟩ | ⟨rm, rfl⟩ | ⟨hn, rfl⟩
  · exact ⟨kvs, rfl, fun k hk => rfl⟩
  · exact ⟨_, rfl, fun k hk => alookup_aset_ne kvs _ k _ hk⟩
  · exact ⟨_, rfl, fun k hk => alookup_append_ne kvs _ k _ hk⟩

theorem normalize_frame_other_keys_witness :
    normalize_loaded_data
        (.obj [(.str "tourism", .obj [(.str "서천 9경", .obj [])]), (.str "stations", .obj [])]) =
      .ok (.obj [(.str "tourism", .obj [(.str "서천 9경", .obj [])]), (.str "stations", .obj []),
                 (.str "region_data", .obj [])]) ∧
    alookup [((.str "tourism" : JValue), (.obj [(.str "서천 9경", .obj [])] : JValue)),
             (.str "stations", .obj []), (.str "region_data", .obj [])] (.str "tourism") =
      alookup [((.str "tourism" : JValue), (.obj [(.str "서천 9경", .obj [])] : JValue)),
               (.str "stations", .obj [])] (.str "tourism") := by
  refine ⟨by decide, ?_⟩
  obtain ⟨kvs2, hy, hframe⟩ :=
    normalize_frame_other_keys
      [(.str "tourism", .obj [(.str "서천 9경", .obj [])]), (.str "stations", .obj [])]
      (.obj [(.str "tourism", .obj [(.str "서천 9경", .obj [])]), (.str "stations", .obj []),
             (.str "region_data", .obj [])])
      (by decide)
  injection hy with hy2
  rw [hy2]
  exact hframe (.str "tourism") (by decide)

theorem alookup_mem {β : Type} :
    ∀ (l : List (JValue × β)) (k : JValue) (v : β), alookup l k = some v → (k, v) ∈ l := by
  intro l
  induction l with
  | nil => intro k v h; cases h
  | cons kv rest ih =>
      intro k v h
      obtain ⟨k1, w⟩ := kv
      by_cases h1 : k1 = k
      · subst h1
        simp only [alookup, if_pos rfl] at h
        cases h
        exact List.mem_cons_self _ _
      · simp only [alookup, if_neg h1] at h
        exact List.mem_cons_of_mem _ (ih k v h)

/-- C1 counterexample: a route value that is a record holding a flat time
list under the fallback key "destinations" and under no other key is NOT
wrapped into a one-entry mapping keyed by the route name: since its every
value is a list, it is taken as a direct destination map and stays keyed
"destinations", and it therefore disagrees with the flat-list form of the
same data, which is keyed by the route name. -/
theorem normRoute_fallback_only_key_not_route_named :
    normRoute (.str "한산 방면") (.obj [(.str "destinations", .arr [.str "08:10"])]) =
      .obj [(.str "destinations", .arr [.str "08:10"])] ∧
    normRoute (.str "한산 방면") (.obj [(.str "destinations", .arr [.str "08:10"])]) ≠
      .obj [(.str "한산 방면", .arr [.str "08:10"])] ∧
    normRoute (.str "한산 방면") (.arr [.str "08:10"]) =
      .obj [(.str "한산 방면", .arr [.str "08:10"])] ∧
    normRoute (.str "한산 방면") (.obj [(.str "destinations", .arr [.str "08:10"])]) ≠
      normRoute (.str "한산 방면") (.arr [.str "08:10"]) := by
  decide

/-- C1 (amended): the nested-destination-record form, the all-list record
form and the flat list form normalize to the same DestinationMap when they
encode the same destination/time data, and a record holding the time list
under the fallback key "destinations" next to some non-list value is wrapped
into a one-entry map keyed by the route name; but a record holding such a
list under "destinations" and under no other key resolves as a direct map
still keyed "destinations", not by the route name. -/
theorem normRoute_forms :
    (∀ (r : JValue) (entries d : List (JValue × JValue)),
        alookup entries (.str "destinations") = some (.obj d) →
        normRoute r (.obj entries) = .obj d) ∧
    (∀ (r : JValue) (entries : List (JValue × JValue)),
        entries ≠ [] → (∀ kv ∈ entries, kv.2.isArr = true) →
        normRoute r (.obj entries) = .obj entries) ∧
    (∀ (r : JValue) (ts : List JValue),
        normRoute r (.arr ts) = .obj [(r, .arr ts)]) ∧
    (∀ (r k v : JValue) (ts : List JValue),
        k ≠ .str "destinations" → v.isArr = false →
        normRoute r (.obj [(.str "destinations", .arr ts), (k, v)]) =
          .obj [(r, .arr ts)]) ∧
    (∀ (r : JValue) (dm : List (JValue × JValue)),
        dm ≠ [] → (∀ kv ∈ dm, kv.2.isArr = true) →
        normRoute r (.obj [(.str "destinations", .obj dm)]) = normRoute r (.obj dm)) ∧
    (∀ (r : JValue) (ts : List JValue),
        normRoute r (.arr ts) = normRoute r (.obj [(r, .arr ts)])) := by
  have hA : ∀ (r : JValue) (entries d : List (JValue × JValue)),
      alookup entries (.str "destinations") = some (.obj d) →
      normRoute r (.obj entries) = .obj d := by
    intro r entries d h
    simp only [normRoute, h]
  have hB : ∀ (r : JValue) (entries : List (JValue × JValue)),
      entries ≠ [] → (∀ kv ∈ entries, kv.2.isArr = true) →
      normRoute r (.obj entries) = .obj entries := by
    intro r entries hne hall
    have hdir : (!entries.isEmpty && entries.all (fun kv => kv.2.isArr)) = true := by
      rw [Bool.and_eq_true]
      constructor
      · simpa [List.isEmpty_iff] using hne
      · exact List.all_eq_true.mpr hall
    cases hd : alookup entries (.str "destinations") with
    | none =>
        simp only [normRoute, hd, hdir, if_true]
    | some v =>
        have hv : v.isArr = true := hall _ (alookup_mem entries _ v hd)
        cases v with
        | arr l => simp only [normRoute, hd, hdir, if_true]
        | null => simp [JValue.isArr] at hv
        | bool b => simp [JValue.isArr] at hv
        | num q => simp [JValue.isArr] at hv
        | str s => simp [JValue.isArr] at hv
        | obj o => simp [JValue.isArr] at hv
  have hC : ∀ (r : JValue) (ts : List JValue),
      normRoute r (.arr ts) = .obj [(r, .arr ts)] := fun r ts => rfl
  have hD : ∀ (r k v : JValue) (ts : List JValue),
      k ≠ .str "destinations" → v.isArr = false →
      normRoute r (.obj [(.str "destinations", .arr ts), (k, v)]) =
        .obj [(r, .arr ts)] := by
    intro r k v ts _ hv
    simp [normRoute, alookup, hv]
  refine ⟨hA, hB, hC, hD, ?_, ?_⟩
  · intro r dm hne hall
    rw [hA r _ dm (by simp [alookup]), hB r dm hne hall]
  · intro r ts
    rw [hC r ts, hB r [(r, .arr ts)] (by simp) (by simp [JValue.isArr])]

theorem normRoute_forms_witness :
    (([((.str "한산 방면" : JValue), (.arr [.str "06:40"] : JValue))] :
        List (JValue × JValue)) ≠ []) ∧
    normRoute (.str "한산 방면") (.obj [(.str "한산 방면", .arr [.str "06:40"])]) =
      .obj [(.str "한산 방면", .arr [.str "06:40"])] ∧
    normRoute (.str "한산 방면")
        (.obj [(.str "destinations", .arr [.str "06:40"]), (.str "비고", .str "경유")]) =
      .obj [(.str "한산 방면", .arr [.str "06:40"])] := by
  refine ⟨by decide, ?_, ?_⟩
  · exact normRoute_forms.2.1 _ _ (by decide) (by decide)
  · exact normRoute_forms.2.2.2.1 _ _ _ _ (by decide) (by decide)

theorem pyChain_spec :
    ∀ gs : List (Option JValue),
      (if (pyChain gs).isArr then pyChain gs else .arr []) =
        (match firstTruthyAlias gs with
         | some (.arr l) => JValue.arr l
         | _ => JValue.arr []) := by
  intro gs
  induction gs with
  | nil => simp [pyChain, firstTruthyAlias, JValue.isArr]
  | cons g gs ih =>
      cases g with
      | none => simpa [pyChain, firstTruthyAlias, pyOr, truthy, Option.getD] using ih
      | some v =>
          by_cases ht : truthy v = true
          · cases v with
            | arr l => simp [pyChain, firstTruthyAlias, pyOr, ht, JValue.isArr, Option.getD]
            | null => simp [truthy] at ht
            | bool b =>
                simp only [pyChain, firstTruthyAlias, pyOr, Option.getD, ht, if_true]
                simp [JValue.isArr]
            | num q =>
                simp only [pyChain, firstTruthyAlias, pyOr, Option.getD, ht, if_true]
                simp [JValue.isArr]
            | str s =>
                simp only [pyChain, firstTruthyAlias, pyOr, Option.getD, ht, if_true]
                simp [JValue.isArr]
            | obj o =>
                simp only [pyChain, firstTruthyAlias, pyOr, Option.getD, ht, if_true]
                simp [JValue.isArr]
          · simp only [pyChain, firstTruthyAlias, pyOr, Option.getD, ht, if_false]
            exact ih

theorem pyChain_spec3 (g1 g2 g3 : Option JValue) :
    (if (pyOr (g1.getD .null) (pyOr (g2.getD .null) (pyOr (g3.getD .null) (.arr [])))).isArr
     then pyOr (g1.getD .null) (pyOr (g2.getD .null) (pyOr (g3.getD .null) (.arr [])))
     else .arr []) = gpsSpecChain g1 g2 g3 := by
  have h := pyChain_spec [g1, g2, g3]
  simp only [pyChain] at h
  rw [h]
  rfl

/-- A successful station normalization yields exactly the two-field
station_entry, with the coordinate field computed from the alias chain. -/
theorem normStation_ok_shape (entries : List (JValue × JValue)) (r e : JValue)
    (h : normStation (.obj entries) = .ok (r, e)) :
    ∃ rl : JValue,
      e = .obj [(.str "gps_info",
            (if (pyOr ((alookup entries (.str "gps")).getD .null)
                   (pyOr ((alookup entries (.str "gps_info")).getD .null)
                     (pyOr ((alookup entries (.str "gpsinfo")).getD .null) (.arr [])))).isArr
             then pyOr ((alookup entries (.str "gps")).getD .null)
                   (pyOr ((alookup entries (.str "gps_info")).getD .null)
                     (pyOr ((alookup entries (.str "gpsinfo")).getD .null) (.arr [])))
             else .arr [])),
           (.str "노선", rl)] := by
  simp only [normStation] at h
  split at h
  next rlist heq =>
    split at h
    next hh =>
      have he := Except.ok.inj h
      injection he with hr he2
      subst he2
      exact ⟨JValue.obj (rlist.map (fun kv : JValue × JValue => (kv.1, normRoute kv.1 kv.2))),
        rfl⟩
    next => cases h
  next => cases h

/-- C10: the station coordinate field follows the alias chain gps, gps_info,
gpsinfo in this order with falsy values treated as absent; a truthy non-list
winner, or no truthy value at all, yields the empty list; and every
normalized station entry carries a list-valued gps_info field. -/
theorem normStation_gps_alias_chain :
    (∀ (entries : List (JValue × JValue)) (r e : JValue),
        normStation (.obj entries) = .ok (r, e) →
        ∃ kvs2, e = .obj kvs2 ∧
          alookup kvs2 (.str "gps_info") =
            some (gpsSpecChain (alookup entries (.str "gps"))
                    (alookup entries (.str "gps_info"))
                    (alookup entries (.str "gpsinfo")))) ∧
    (∀ so r e, normStation so = .ok (r, e) →
        ∃ kvs2 l, e = .obj kvs2 ∧ alookup kvs2 (.str "gps_info") = some (.arr l)) := by
  constructor
  · intro entries r e h
    obtain ⟨rl, he⟩ := normStation_ok_shape entries r e h
    subst he
    refine ⟨_, rfl, ?_⟩
    rw [pyChain_spec3]
    simp [alookup]
  · intro so r e h
    cases so with
    | null => cases h
    | bool b => cases h
    | num q => cases h
    | str s => cases h
    | arr l => cases h
    | obj entries =>
        obtain ⟨rl, he⟩ := normStation_ok_shape entries r e h
        subst he
        have hval : ∀ v : JValue, ∃ l, (if v.isArr then v else JValue.arr []) = .arr l := by
          intro v
          cases v with
          | arr l => exact ⟨l, by simp [JValue.isArr]⟩
          | null => exact ⟨[], by simp [JValue.isArr]⟩
          | bool b => exact ⟨[], by simp [JValue.isArr]⟩
          | num q => exact ⟨[], by simp [JValue.isArr]⟩
          | str s => exact ⟨[], by simp [JValue.isArr]⟩
          | obj o => exact ⟨[], by simp [JValue.isArr]⟩
        obtain ⟨l, hl⟩ := hval (pyOr ((alookup entries (.str "gps")).getD .null)
          (pyOr ((alookup entries (.str "gps_info")).getD .null)
            (pyOr ((alookup entries (.str "gpsinfo")).getD .null) (.arr []))))
        rw [hl]
        exact ⟨[(.str "gps_info", .arr l), (.str "노선", rl)], l, rfl, by simp [alookup]⟩

theorem normStation_gps_alias_chain_witness :
    normStation (.obj [(.str "region", .str "서천읍"), (.str "gps", .num 0),
        (.str "gps_info", .arr [.num 36, .num 126])]) =
      .ok (.str "서천읍", .obj [(.str "gps_info", .arr [.num 36, .num 126]),
        (.str "노선", .obj [])]) ∧
    (∃ kvs2, (JValue.obj [(.str "gps_info", .arr [.num 36, .num 126]),
          (.str "노선", .obj [])]) = .obj kvs2 ∧
        alookup kvs2 (.str "gps_info") =
          some (gpsSpecChain (some (.num 0)) (some (.arr [.num 36, .num 126])) none)) := by
  refine ⟨by decide, ?_⟩
  have h := normStation_gps_alias_chain.1
    [(.str "region", .str "서천읍"), (.str "gps", .num 0),
     (.str "gps_info", .arr [.num 36, .num 126])]
    (.str "서천읍")
    (.obj [(.str "gps_info", .arr [.num 36, .num 126]), (.str "노선", .obj [])])
    (by decide)
  simpa [alookup] using h

theorem filterMap_filter_isSome {α β : Type} (f : α → Option β) :
    ∀ l : List α, (l.filter (fun x => (f x).isSome)).filterMap f = l.filterMap f := by
  intro l
  induction l with
  | nil => rfl
  | cons x xs ih =>
      cases hf : f x with
      | none => simp [List.filter_cons, List.filterMap_cons, hf, ih]
      | some b => simp [List.filter_cons, List.filterMap_cons, hf, ih]

theorem mem_insEntry (x a : Entry) :
    ∀ l : List Entry, a ∈ insEntry x l ↔ a = x ∨ a ∈ l := by
  intro l
  induction l with
  | nil => simp [insEntry]
  | cons y ys ih =>
      simp only [insEntry]
      split
      · simp only [List.mem_cons, ih]
        exact or_left_comm
      · simp only [List.mem_cons]

theorem pairwise_insEntry (x : Entry) :
    ∀ l : List Entry, List.Pairwise (fun a b => entrySec a ≤ entrySec b) l →
      List.Pairwise (fun a b => entrySec a ≤ entrySec b) (insEntry x l) := by
  intro l
  induction l with
  | nil => intro _; simp [insEntry]
  | cons y ys ih =>
      intro h
      rw [List.pairwise_cons] at h
      obtain ⟨hy, hys⟩ := h
      simp only [insEntry]
      split
      next hle =>
          rw [List.pairwise_cons]
          refine ⟨?_, ih hys⟩
          intro a ha
          rcases (mem_insEntry x a ys).mp ha with rfl | ha
          · exact hle
          · exact hy a ha
      next hlt =>
          rw [List.pairwise_cons]
          push_neg at hlt
          refine ⟨?_, List.pairwise_cons.mpr ⟨hy, hys⟩⟩
          intro a ha
          rcases List.mem_cons.mp ha with rfl | ha
          · exact le_of_lt hlt
          · exact le_trans (le_of_lt hlt) (hy a ha)

theorem sortEntries_pairwise (l : List Entry) :
    List.Pairwise (fun a b => entrySec a ≤ entrySec b) (sortEntries l) := by
  suffices h : ∀ acc, List.Pairwise (fun a b => entrySec a ≤ entrySec b) acc →
      List.Pairwise (fun a b => entrySec a ≤ entrySec b)
        (l.foldl (fun acc x => insEntry x acc) acc) by
    exact h [] (by simp)
  induction l with
  | nil => intro acc h; simpa using h
  | cons x xs ih =>
      intro acc h
      simp only [List.foldl_cons]
      exact ih _ (pairwise_insEntry x acc h)

theorem takeWhile_until_marker (p : Char → Bool) :
    ∀ (pre post : List Char) (c : Char), (∀ a ∈ pre, p a = true) → p c = false →
      ((pre ++ c :: post).takeWhile p = pre ∧ pre.takeWhile p = pre) := by
  intro pre post c
  induction pre with
  | nil =>
      intro _ hc
      simp [List.takeWhile, hc]
  | cons a as ih =>
      intro hall hc
      have hpa : p a = true := hall a (by simp)
      obtain ⟨h1, h2⟩ := ih (fun b hb => hall b (by simp [hb])) hc
      constructor <;> simp [List.takeWhile_cons, hpa, h1, h2]

theorem string_append_cho_ne_empty (a : String) : a ++ "초" ≠ "" := by
  intro h
  have h2 : (a ++ "초").data = ("" : String).data := congrArg String.data h
  have h3 : (a ++ "초").data = a.data ++ ("초" : String).data := rfl
  rw [h3] at h2
  have h4 : ("초" : String).data = ['초'] := rfl
  rw [h4] at h2
  simp at h2

/-- C3: the departure scan picks the first sorted candidate whose same-day
instant is strictly later than now — one equal to now is never picked by the
scan — and reports the floor of the second difference divided by 60 as the
remaining minutes; on ["08:10","09:50","21:00"] at 09:00:00 it yields label
"09:50" with 50 minutes remaining. -/
theorem next_departure_first_strictly_later :
    (∀ (ts : List String) (now : KSTTime) (e : Entry),
        (sortEntries (ts.filterMap parseTime)).find? (fun x => nowSec now < entrySec x) =
          some e →
        nowSec now < entrySec e ∧
        calculate_next_bus ts now =
          ⟨"다음 버스까지 약 " ++
             toString (Int.fdiv ((entrySec e : Int) - (nowSec now : Int)) 60) ++
             "분 남음 (" ++ e.2.2 ++ " 출발)", some e.2.2, fmtNow now⟩) ∧
    calculate_next_bus ["08:10", "09:50", "21:00"] ⟨2026, 10, 12, 9, 0, 0⟩ =
      ⟨"다음 버스까지 약 50분 남음 (09:50 출발)", some "09:50",
       "2026년 10월 12일 09시 00분 00초"⟩ ∧
    (calculate_next_bus ["09:00", "09:50"] ⟨2026, 10, 12, 9, 0, 0⟩).label = some "09:50" := by
  refine ⟨?_, by decide, by decide⟩
  intro ts now e h
  constructor
  · simpa using List.find?_some h
  · simp only [calculate_next_bus, h]

theorem next_departure_first_strictly_later_witness :
    nowSec ⟨2026, 10, 12, 9, 0, 0⟩ < entrySec (9, 50, "09:50") ∧
    calculate_next_bus ["08:10", "09:50", "21:00"] ⟨2026, 10, 12, 9, 0, 0⟩ =
      ⟨"다음 버스까지 약 50분 남음 (09:50 출발)", some "09:50",
       "2026년 10월 12일 09시 00분 00초"⟩ :=
  next_departure_first_strictly_later.1 ["08:10", "09:50", "21:00"]
    ⟨2026, 10, 12, 9, 0, 0⟩ (9, 50, "09:50") (by decide)

/-- C4: when at least one entry parsed but none is strictly later than now,
the earliest sorted candidate plus one civil day (86400 seconds) becomes the
next departure and the service-ended description carries its label; on
["06:40","21:00"] at 23:00:00 the label is "06:40" with 460 minutes. -/
theorem next_departure_rollover :
    (∀ (ts : List String) (now : KSTTime) (first : Entry) (rest : List Entry),
        sortEntries (ts.filterMap parseTime) = first :: rest →
        (sortEntries (ts.filterMap parseTime)).find? (fun x => nowSec now < entrySec x) =
          none →
        (∀ x ∈ first :: rest, entrySec first ≤ entrySec x) ∧
        calculate_next_bus ts now =
          ⟨"오늘 운행 종료 — 내일 첫차 " ++ first.2.2 ++ "까지 약 " ++
             toString (Int.fdiv ((86400 + (entrySec first : Int)) - (nowSec now : Int)) 60) ++
             "분 남음", some first.2.2, fmtNow now⟩) ∧
    calculate_next_bus ["06:40", "21:00"] ⟨2026, 10, 12, 23, 0, 0⟩ =
      ⟨"오늘 운행 종료 — 내일 첫차 06:40까지 약 460분 남음", some "06:40",
       "2026년 10월 12일 23시 00분 00초"⟩ := by
  refine ⟨?_, by decide⟩
  intro ts now first rest hsort hnone
  constructor
  · have hp : List.Pairwise (fun a b => entrySec a ≤ entrySec b) (first :: rest) := by
      rw [← hsort]
      exact sortEntries_pairwise _
    intro x hx
    rcases List.mem_cons.mp hx with rfl | hx
    · exact le_refl _
    · exact (List.pairwise_cons.mp hp).1 x hx
  · rw [hsort] at hnone
    simp only [calculate_next_bus, hsort, hnone]

theorem next_departure_rollover_witness :
    calculate_next_bus ["06:40", "21:00"] ⟨2026, 10, 12, 23, 0, 0⟩ =
      ⟨"오늘 운행 종료 — 내일 첫차 06:40까지 약 460분 남음", some "06:40",
       "2026년 10월 12일 23시 00분 00초"⟩ :=
  (next_departure_rollover.1 ["06:40", "21:00"] ⟨2026, 10, 12, 23, 0, 0⟩
    (6, 40, "06:40") [(21, 0, "21:00")] (by decide) (by decide)).2

/-- C5: unparseable entries are discarded without affecting the rest — the
result is unchanged when the input is filtered down to its parseable
entries — and each entry is truncated at the first '역' before parsing; on
["bad","25:99","08:10"] at 07:00 the label is "08:10", and on ["13:20역"]
at 10:00 the label is the stripped "13:20". -/
theorem next_departure_skips_malformed :
    (∀ (ts : List String) (now : KSTTime),
        calculate_next_bus ts now =
          calculate_next_bus (ts.filter (fun t => (parseTime t).isSome)) now) ∧
    (∀ pre post : List Char, (∀ c ∈ pre, c ≠ '역') →
        parseTime (String.mk (pre ++ '역' :: post)) = parseTime (String.mk pre)) ∧
    (calculate_next_bus ["bad", "25:99", "08:10"] ⟨2026, 10, 12, 7, 0, 0⟩).label =
      some "08:10" ∧
    (calculate_next_bus ["13:20역"] ⟨2026, 10, 12, 10, 0, 0⟩).label = some "13:20" := by
  refine ⟨?_, ?_, by decide, by decide⟩
  · intro ts now
    simp only [calculate_next_bus, filterMap_filter_isSome parseTime ts]
  · intro pre post hall
    have h := takeWhile_until_marker (fun c => c ≠ '역') pre post '역'
      (fun a ha => by simpa using hall a ha) (by simp)
    simp only [parseTime]
    rw [show (String.mk (pre ++ '역' :: post)).toList = pre ++ '역' :: post from rfl,
        show (String.mk pre).toList = pre from rfl, h.1, h.2]

theorem next_departure_skips_malformed_witness :
    calculate_next_bus ["bad", "25:99", "08:10"] ⟨2026, 10, 12, 7, 0, 0⟩ =
      calculate_next_bus ["08:10"] ⟨2026, 10, 12, 7, 0, 0⟩ ∧
    parseTime (String.mk (['1', '3', ':', '2', '0'] ++ '역' :: [])) =
      parseTime (String.mk ['1', '3', ':', '2', '0']) := by
  constructor
  · exact next_departure_skips_malformed.1 ["bad", "25:99", "08:10"] ⟨2026, 10, 12, 7, 0, 0⟩
  · exact next_departure_skips_malformed.2.1 ['1', '3', ':', '2', '0'] [] (by decide)

/-- C7: when no entry parses (in particular on the empty list) the result is
the no-schedule description with no label; and on every branch the third
component is now formatted by the fixed date-time pattern, a non-empty
string ending in the seconds field. -/
theorem next_departure_no_schedule_and_formatted_now :
    (∀ (ts : List String) (now : KSTTime), ts.filterMap parseTime = [] →
        calculate_next_bus ts now = ⟨"등록된 시간표가 없습니다.", none, fmtNow now⟩) ∧
    (∀ (ts : List String) (now : KSTTime), (calculate_next_bus ts now).nowStr = fmtNow now) ∧
    (∀ now : KSTTime, fmtNow now ≠ "" ∧
        ∃ d, fmtNow now = d ++ pad2 now.second ++ "초") ∧
    calculate_next_bus [] ⟨2026, 10, 12, 10, 0, 0⟩ =
      ⟨"등록된 시간표가 없습니다.", none, "2026년 10월 12일 10시 00분 00초"⟩ := by
  refine ⟨?_, ?_, ?_, by decide⟩
  · intro ts now h
    simp only [calculate_next_bus, h]
    rfl
  · intro ts now
    cases hf : (sortEntries (ts.filterMap parseTime)).find?
        (fun e => nowSec now < entrySec e) with
    | some e => simp [calculate_next_bus, hf]
    | none =>
        cases hs : sortEntries (ts.filterMap parseTime) with
        | nil =>
            rw [hs] at hf
            simp [calculate_next_bus, hf, hs]
        | cons a as =>
            rw [hs] at hf
            simp [calculate_next_bus, hf, hs]
  · intro now
    constructor
    · exact string_append_cho_ne_empty
        (pad4 now.year ++ "년 " ++ pad2 now.month ++ "월 " ++ pad2 now.day ++ "일 " ++
          pad2 now.hour ++ "시 " ++ pad2 now.minute ++ "분 " ++ pad2 now.second)
    · exact ⟨pad4 now.year ++ "년 " ++ pad2 now.month ++ "월 " ++ pad2 now.day ++ "일 " ++
        pad2 now.hour ++ "시 " ++ pad2 now.minute ++ "분 ", rfl⟩

theorem next_departure_no_schedule_witness :
    (["xx"].filterMap parseTime = ([] : List Entry)) ∧
    calculate_next_bus ["xx"] ⟨2026, 10, 12, 10, 0, 0⟩ =
      ⟨"등록된 시간표가 없습니다.", none, fmtNow ⟨2026, 10, 12, 10, 0, 0⟩⟩ :=
  ⟨by decide,
   next_departure_no_schedule_and_formatted_now.1 ["xx"] ⟨2026, 10, 12, 10, 0, 0⟩ (by decide)⟩

/-- C8: the Python calculate_next_bus takes only the timetable list and
samples now from the wall clock internally, so its result is not a function
of the list alone: the modelled computation, with the internal clock sample
made an explicit argument, returns different results for the same timetable
at two different sampled instants. (With now fixed, the rest of the
computation is a pure function of the two values, as the model's type
shows.) -/
theorem calculate_next_bus_clock_dependence :
    calculate_next_bus ["08:10"] ⟨2026, 10, 12, 7, 0, 0⟩ ≠
      calculate_next_bus ["08:10"] ⟨2026, 10, 12, 9, 0, 0⟩ := by
  decide

end LocalitApp
